import Mathlib

/-!
Verification of the multiphototool repository's core orchestration logic:
a shallow embedding of the retry/cache facade (`src/lib/photoStorage.ts`),
the batch metadata endpoint (`src/app/api/cloudinary-batch/route.ts`),
the in-memory sliding-window rate limiter (`src/lib/rate-limit.ts`, legacy
limiter, together with the `retryAfter` computation of
`src/lib/rate-limiter.ts`), and the client-side upload orchestrator
(`CloudinaryUploader` component).

Machine integers do not overflow in any of the modelled code paths
(JavaScript numbers are used as counters and timestamps far below 2^53),
so counters are modelled as `Nat`/`Int` and fractional arithmetic
(success rates, `Math.round`) as `Rat`.
-/

namespace PhotoStorage

/-! ## `PhotoStorageService.withRetry` (src/lib/photoStorage.ts, lines 127-155)

The source is:

```ts
for (let attempt = 0; attempt <= maxRetries; attempt++) {
  try { return await operation(); }
  catch (error) {
    lastError = ...;
    if (attempt === maxRetries) { throw lastError; }
    const delay = this.config.retryDelay! * Math.pow(2, attempt) + Math.random() * 1000;
    await new Promise(resolve => setTimeout(resolve, delay));
  }
}
```

We embed the async callback `operation` as a function from the attempt
number to its outcome (`Except ε α`), the nondeterministic
`Math.random() * 1000` as an explicit jitter sequence `jitter : Nat → Rat`
(each value lies in `[0, 1000)`), and record, besides the final outcome,
the number of invocations of `operation` and the list of waits inserted
between attempts, in order. -/

/-- One backoff wait: `retryDelay * Math.pow(2, attempt) + Math.random() * 1000`
(line 147 of photoStorage.ts), with the random sample made explicit. -/
def backoffDelay (retryDelay : ℚ) (jitter : ℕ → ℚ) (attempt : ℕ) : ℚ :=
  retryDelay * 2 ^ attempt + jitter attempt

/-- The retry loop from `attempt` with `remaining` further attempts allowed
after the current one.  Returns the outcome, the number of invocations of
`fn` performed, and the list of waits inserted (in order). -/
def withRetryGo (fn : ℕ → Except ε α) (retryDelay : ℚ) (jitter : ℕ → ℚ) :
    ℕ → ℕ → Except ε α × ℕ × List ℚ
  | attempt, remaining =>
    match fn attempt with
    | .ok v => (.ok v, 1, [])
    | .error e =>
      match remaining with
      | 0 => (.error e, 1, [])
      | r + 1 =>
        let rest := withRetryGo fn retryDelay jitter (attempt + 1) r
        (rest.1, rest.2.1 + 1, backoffDelay retryDelay jitter attempt :: rest.2.2)

/-- `PhotoStorageService.withRetry`: the loop runs `attempt = 0 .. maxRetries`. -/
def withRetry (fn : ℕ → Except ε α) (maxRetries : ℕ) (retryDelay : ℚ)
    (jitter : ℕ → ℚ) : Except ε α × ℕ × List ℚ :=
  withRetryGo fn retryDelay jitter 0 maxRetries

/-- Number of invocations of the wrapped function. -/
def withRetryCalls (fn : ℕ → Except ε α) (maxRetries : ℕ) (retryDelay : ℚ)
    (jitter : ℕ → ℚ) : ℕ :=
  (withRetry fn maxRetries retryDelay jitter).2.1

theorem withRetryGo_calls_le (fn : ℕ → Except ε α) (d : ℚ) (j : ℕ → ℚ) :
    ∀ r a, (withRetryGo fn d j a r).2.1 ≤ r + 1 := by
  intro r
  induction r with
  | zero =>
    intro a
    unfold withRetryGo
    cases fn a <;> simp
  | succ r ih =>
    intro a
    unfold withRetryGo
    cases fn a with
    | ok v => simp
    | error e =>
      simp only
      have h := ih (a + 1)
      omega

theorem withRetryGo_calls_pos (fn : ℕ → Except ε α) (d : ℚ) (j : ℕ → ℚ)
    (r a : ℕ) : 1 ≤ (withRetryGo fn d j a r).2.1 := by
  unfold withRetryGo
  cases fn a with
  | ok v => simp
  | error e => cases r <;> simp

theorem withRetryGo_all_error (fn : ℕ → Except ε α) (d : ℚ) (j : ℕ → ℚ)
    (err : ℕ → ε) (hfn : ∀ i, fn i = .error (err i)) :
    ∀ r a, withRetryGo fn d j a r =
      (.error (err (a + r)), r + 1, (List.range' a r).map (backoffDelay d j)) := by
  intro r
  induction r with
  | zero =>
    intro a
    unfold withRetryGo
    rw [hfn a]
    simp
  | succ r ih =>
    intro a
    unfold withRetryGo
    rw [hfn a]
    simp only [ih (a + 1), List.range'_succ, List.map_cons]
    have h : a + 1 + r = a + (r + 1) := by omega
    rw [h]

/-- **C3.** Retry behaviour of `withRetry` (photoStorage.ts lines 127-155):
with the default `maxRetries = 3`, a function that fails on attempts 0 and 1
and succeeds on attempt 2 yields the success value with exactly 3 invocations;
and for any `maxRetries`, a function that fails on every attempt is invoked
exactly `maxRetries + 1` times and the final error is propagated. -/
theorem withRetry_attempt_counts
    (fn : ℕ → Except ε α) (d : ℚ) (j : ℕ → ℚ)
    (g : ℕ → Except ε' α') (err : ℕ → ε') (m : ℕ)
    (e0 e1 : ε) (v : α)
    (h0 : fn 0 = .error e0) (h1 : fn 1 = .error e1) (h2 : fn 2 = .ok v)
    (hg : ∀ i, g i = .error (err i)) :
    (withRetry fn 3 d j).1 = .ok v ∧ withRetryCalls fn 3 d j = 3 ∧
    (withRetry g m d j).1 = .error (err m) ∧ withRetryCalls g m d j = m + 1 := by
  have hfail := withRetryGo_all_error g d j err hg m 0
  constructor
  · unfold withRetry withRetryGo
    rw [h0]
    simp only
    unfold withRetryGo
    rw [h1]
    simp only
    unfold withRetryGo
    rw [h2]
  · constructor
    · unfold withRetryCalls withRetry withRetryGo
      rw [h0]
      simp only
      unfold withRetryGo
      rw [h1]
      simp only
      unfold withRetryGo
      rw [h2]
    · unfold withRetry withRetryCalls withRetry
      rw [hfail]
      simp

/-- Witness for `withRetry_attempt_counts` at concrete inputs. -/
theorem withRetry_attempt_counts_witness :
    (withRetry (fun i => if i < 2 then .error i else .ok "done") 3 1000 (fun _ => 0)).1
        = .ok "done" ∧
    withRetryCalls (fun i => if i < 2 then .error i else .ok "done") 3 1000 (fun _ => 0) = 3 ∧
    (withRetry (fun i => (.error i : Except ℕ String)) 5 1000 (fun _ => 0)).1 = .error 5 ∧
    withRetryCalls (fun i => (.error i : Except ℕ String)) 5 1000 (fun _ => 0) = 5 + 1 :=
  withRetry_attempt_counts
    (fun i => if i < 2 then .error i else .ok "done") 1000 (fun _ => 0)
    (fun i => (.error i : Except ℕ String)) (fun i => i) 5
    0 1 "done" rfl rfl rfl (fun _ => rfl)

/-- **C2 counterexample.** The claim says `fn` is invoked at most
`maxRetries = 3` times in total; the code's loop runs `attempt = 0..maxRetries`
inclusive, so an always-failing function with the default `maxRetries = 3`
is invoked 4 times. -/
theorem withRetry_calls_exceed_maxRetries :
    withRetryCalls (fun _ => (.error 0 : Except ℕ Unit)) 3 1000 (fun _ => 0) = 4 ∧
    ¬ (withRetryCalls (fun _ => (.error 0 : Except ℕ Unit)) 3 1000 (fun _ => 0) ≤ 3) := by
  constructor <;> decide

/-- **C2 (amended).** `fn` is invoked at most `maxRetries + 1` times (4 with the
default `maxRetries = 3`) before the call returns `fn`'s success value or
propagates the last error (the result is the outcome of the last invocation);
the wait inserted after failed attempt `i` (0-indexed) is
`retryDelay * 2 ^ i + jitter i` where the jitter is below 1000 ms: the waits
performed are exactly `backoffDelay` at attempts `0 .. calls - 2`, and each
lies in `[retryDelay * 2 ^ i, retryDelay * 2 ^ i + 1000)`. -/
theorem withRetry_calls_le_and_backoff
    (fn : ℕ → Except ε α) (m : ℕ) (d : ℚ) (j : ℕ → ℚ)
    (hj : ∀ i, 0 ≤ j i ∧ j i < 1000) :
    withRetryCalls fn m d j ≤ m + 1 ∧
    (withRetry fn m d j).1 = fn (withRetryCalls fn m d j - 1) ∧
    (withRetry fn m d j).2.2 =
      (List.range (withRetryCalls fn m d j - 1)).map (backoffDelay d j) ∧
    ∀ i, d * 2 ^ i ≤ backoffDelay d j i ∧ backoffDelay d j i < d * 2 ^ i + 1000 := by
  have key : ∀ r a, (withRetryGo fn d j a r).1 = fn (a + ((withRetryGo fn d j a r).2.1 - 1)) ∧
      (withRetryGo fn d j a r).2.2 =
        (List.range' a ((withRetryGo fn d j a r).2.1 - 1)).map (backoffDelay d j) := by
    intro r
    induction r with
    | zero =>
      intro a
      unfold withRetryGo
      cases h : fn a <;> simp [h]
    | succ r ih =>
      intro a
      unfold withRetryGo
      cases h : fn a with
      | ok v => simp [h]
      | error e =>
        simp only
        obtain ⟨ih1, ih2⟩ := ih (a + 1)
        have hpos := withRetryGo_calls_pos fn d j r (a + 1)
        constructor
        · rw [ih1]
          congr 1
          omega
        · have harith : (withRetryGo fn d j (a + 1) r).2.1 + 1 - 1 =
              ((withRetryGo fn d j (a + 1) r).2.1 - 1) + 1 := by omega
          rw [ih2, harith, List.range'_succ]
          simp
  have hkey := key m 0
  rw [Nat.zero_add] at hkey
  unfold withRetryCalls withRetry
  refine ⟨withRetryGo_calls_le fn d j m 0, hkey.1, ?_, ?_⟩
  · rw [hkey.2, List.range_eq_range']
  · intro i
    unfold backoffDelay
    obtain ⟨h1, h2⟩ := hj i
    constructor <;> linarith

/-- Witness for `withRetry_calls_le_and_backoff` at a concrete input. -/
theorem withRetry_calls_le_and_backoff_witness :
    withRetryCalls (fun _ => (.error 0 : Except ℕ Unit)) 3 1000 (fun _ => 500) ≤ 3 + 1 ∧
    (withRetry (fun _ => (.error 0 : Except ℕ Unit)) 3 1000 (fun _ => 500)).1 =
      (fun _ => (.error 0 : Except ℕ Unit))
        (withRetryCalls (fun _ => (.error 0 : Except ℕ Unit)) 3 1000 (fun _ => 500) - 1) ∧
    (withRetry (fun _ => (.error 0 : Except ℕ Unit)) 3 1000 (fun _ => 500)).2.2 =
      (List.range (withRetryCalls (fun _ => (.error 0 : Except ℕ Unit)) 3 1000
        (fun _ => 500) - 1)).map (backoffDelay 1000 (fun _ => 500)) ∧
    ∀ i, (1000 : ℚ) * 2 ^ i ≤ backoffDelay 1000 (fun _ => 500) i ∧
      backoffDelay 1000 (fun _ => 500) i < 1000 * 2 ^ i + 1000 :=
  withRetry_calls_le_and_backoff (fun _ => (.error 0 : Except ℕ Unit)) 3 1000
    (fun _ => 500) (fun _ => by norm_num)

/-! ## Cache of `PhotoStorageService` (src/lib/photoStorage.ts, lines 84-124)

`getCacheKey(operation, params)` builds
`operation + ":" + Object.keys(params).sort().map(k => k + ":" + params[k]).join("|")`.
We model the JavaScript parameter object by its key list (`Object.keys`) plus
a valuation sending each key to the string interpolation of its value, and
`Array.prototype.sort()` (lexicographic on strings) by insertion sort under
`· ≤ ·` on `String`.  The cache `Map` is modelled as an association list with
at most one entry per key. -/

/-- `getCacheKey` (photoStorage.ts lines 84-90). -/
def getCacheKey (operation : String) (keys : List String) (params : String → String) :
    String :=
  operation ++ ":" ++
    String.intercalate "|"
      ((keys.insertionSort (· ≤ ·)).map (fun k => k ++ ":" ++ params k))

/-- A cache entry: `{ data, timestamp, ttl }` (photoStorage.ts lines 48-52). -/
structure CacheEntry (α : Type) where
  data : α
  timestamp : ℤ
  ttl : ℤ
deriving DecidableEq, Repr

/-- `this.cache.get(key)` on the association-list model. -/
def lookupEntry (cache : List (String × CacheEntry α)) (key : String) :
    Option (CacheEntry α) :=
  (cache.find? (fun p => p.1 == key)).map (·.2)

/-- `getFromCache` (photoStorage.ts lines 92-102): a missing key returns
`null`; an entry with `Date.now() - entry.timestamp > entry.ttl` is deleted
and `null` is returned; otherwise the entry's data is returned.  Returns the
looked-up value together with the updated cache. -/
def getFromCache (cache : List (String × CacheEntry α)) (key : String) (now : ℤ) :
    Option α × List (String × CacheEntry α) :=
  match lookupEntry cache key with
  | none => (none, cache)
  | some e =>
    if e.ttl < now - e.timestamp then (none, cache.eraseP (fun p => p.1 == key))
    else (some e.data, cache)

/-- `setCache` (photoStorage.ts lines 104-111): `this.cache.set(key, entry)`. -/
def setCache (cache : List (String × CacheEntry α)) (key : String) (data : α)
    (now : ℤ) (ttl : ℤ) : List (String × CacheEntry α) :=
  (key, ⟨data, now, ttl⟩) :: cache.eraseP (fun p => p.1 == key)

/-- Read path of `fetchPhotosByFolder` (photoStorage.ts lines 168-210): when
`useCache && !forceRefresh` and a fresh entry exists, it is returned without
invoking the underlying operation; otherwise the operation runs (through
`withRetry`) and, when `useCache`, its result is stored.  The underlying
network call has no bearing on the cache logic, so its (successful) result
is a parameter; the returned `Bool` records whether it was invoked. -/
def cachedFetch (cache : List (String × CacheEntry α)) (key : String) (now : ℤ)
    (useCache forceRefresh : Bool) (fnResult : α) (ttl : ℤ) :
    α × Bool × List (String × CacheEntry α) :=
  if useCache && !forceRefresh then
    match getFromCache cache key now with
    | (some v, cache1) => (v, false, cache1)
    | (none, cache1) =>
      (fnResult, true, if useCache then setCache cache1 key fnResult now ttl else cache1)
  else
    (fnResult, true, if useCache then setCache cache key fnResult now ttl else cache)

/-- **C7.** Cache-key determinism and TTL expiry: (1) two calls with the same
operation name and the same set of parameter key/value pairs (the key lists
are permutations of one another, values given by the same valuation) produce
the same cache key, and hence the same `cachedFetch` behaviour on any cache;
(2) a lookup made more than `ttl` after the entry was stored misses and the
underlying function is invoked again. -/
theorem cacheKey_order_independent_and_ttl_expiry
    (op : String) (ks1 ks2 : List String) (params : String → String)
    (cache : List (String × CacheEntry α)) (key : String) (e : CacheEntry α)
    (now : ℤ) (fnResult : α) (ttl : ℤ)
    (hperm : ks1.Perm ks2)
    (hfound : lookupEntry cache key = some e)
    (hexpired : e.ttl < now - e.timestamp) :
    getCacheKey op ks1 params = getCacheKey op ks2 params ∧
    (∀ (c2 : List (String × CacheEntry α)) (n2 : ℤ) (u2 f2 : Bool) (r2 : α) (t2 : ℤ),
      cachedFetch c2 (getCacheKey op ks1 params) n2 u2 f2 r2 t2 =
      cachedFetch c2 (getCacheKey op ks2 params) n2 u2 f2 r2 t2) ∧
    (cachedFetch cache key now true false fnResult ttl).2.1 = true := by
  have hkey : getCacheKey op ks1 params = getCacheKey op ks2 params := by
    unfold getCacheKey
    have hsorted : ks1.insertionSort (· ≤ ·) = ks2.insertionSort (· ≤ ·) := by
      apply List.eq_of_perm_of_sorted
        (((List.perm_insertionSort _ ks1).trans hperm).trans
          (List.perm_insertionSort _ ks2).symm)
        (List.sorted_insertionSort _ ks1) (List.sorted_insertionSort _ ks2)
    rw [hsorted]
  refine ⟨hkey, fun c2 n2 u2 f2 r2 t2 => by rw [hkey], ?_⟩
  unfold cachedFetch getFromCache
  rw [hfound]
  simp [hexpired]

/-- Witness for `cacheKey_order_independent_and_ttl_expiry` at concrete
inputs: permuted parameter orders, and an entry stored at time 0 with a TTL
of 300000 ms looked up at time 300001. -/
theorem cacheKey_order_independent_and_ttl_expiry_witness :
    getCacheKey "fetchPhotos" ["userId", "gameNumber"] (fun k => k) =
      getCacheKey "fetchPhotos" ["gameNumber", "userId"] (fun k => k) ∧
    (∀ c2 n2 u2 f2 r2 t2,
      cachedFetch c2 (getCacheKey "fetchPhotos" ["userId", "gameNumber"] (fun k => k))
          n2 u2 f2 (r2 : ℕ) t2 =
        cachedFetch c2 (getCacheKey "fetchPhotos" ["gameNumber", "userId"] (fun k => k))
          n2 u2 f2 r2 t2) ∧
    (cachedFetch [("k", (⟨7, 0, 300000⟩ : CacheEntry ℕ))] "k" 300001 true false 9
      300000).2.1 = true :=
  cacheKey_order_independent_and_ttl_expiry "fetchPhotos"
    ["userId", "gameNumber"] ["gameNumber", "userId"] (fun k => k)
    [("k", (⟨7, 0, 300000⟩ : CacheEntry ℕ))] "k" ⟨7, 0, 300000⟩ 300001 9 300000
    (List.Perm.swap _ _ _) rfl (by norm_num)

end PhotoStorage

namespace RateLimiter

/-! ## In-memory sliding-window rate limiter (src/lib/rate-limit.ts)

The legacy limiter's `check` (used by the batch route) keeps, per key, the
list of request timestamps:

```ts
const windowStart = now - config.interval;
const tokenCount = tokens.get(key) || [];
const validTokens = tokenCount.filter((timestamp) => timestamp > windowStart);
if (validTokens.length >= limit) { throw new Error('Rate limit exceeded'); }
validTokens.push(now);
tokens.set(key, validTokens);
```

Keys are checked independently, so we model the state of one key: its stored
timestamp list.  On rejection the error is thrown before `tokens.set`, so the
stored state is unchanged.

`checkRateLimit` (src/lib/rate-limiter.ts lines 46-71) surfaces a rejection
as `retryAfter = Math.round(rejRes.msBeforeNext / 1000) || 60`; the
`msBeforeNext` it receives is produced by the external `rate-limiter-flexible`
package, which is not part of this repository. -/

/-- Outcome of one `check` call: allowed, or rejected (the thrown
`'Rate limit exceeded'`). -/
inductive RLResult where
  | allowed
  | rejected
deriving DecidableEq, Repr

/-- One `check` call of the legacy limiter for a single key.  Returns the
outcome and the stored timestamp list after the call. -/
def rateLimitCheck (tokens : List ℤ) (now : ℤ) (limit : ℕ) (interval : ℤ) :
    RLResult × List ℤ :=
  let windowStart := now - interval
  let validTokens := tokens.filter (fun t => windowStart < t)
  if limit ≤ validTokens.length then (.rejected, tokens)
  else (.allowed, validTokens ++ [now])

/-- A sequence of `check` calls at the given timestamps, all for one key. -/
def runChecks (tokens : List ℤ) (times : List ℤ) (limit : ℕ) (interval : ℤ) :
    List RLResult × List ℤ :=
  match times with
  | [] => ([], tokens)
  | t :: ts =>
    let r := rateLimitCheck tokens t limit interval
    let rest := runChecks r.2 ts limit interval
    (r.1 :: rest.1, rest.2)

/-- `Math.round` on a rational: JavaScript rounds half up. -/
def jsRound (q : ℚ) : ℤ := ⌊q + 1 / 2⌋

/-- `retryAfter` from `checkRateLimit` (rate-limiter.ts line 63):
`Math.round(rejRes.msBeforeNext / 1000) || 60`; a falsy (zero) rounding
falls back to 60 seconds. -/
def retryAfterSeconds (msBeforeNext : ℤ) : ℤ :=
  if jsRound ((msBeforeNext : ℚ) / 1000) = 0 then 60
  else jsRound ((msBeforeNext : ℚ) / 1000)

/-- Modelled from the spec: `msBeforeNext` for the in-memory sliding window.
The backing computation lives in the external `rate-limiter-flexible`
package, which is not part of this repository; spec §4.1 prescribes
"`retryAfterSeconds` derived from the oldest surviving timestamp's expiry",
i.e. the time until the oldest timestamp still inside the trailing window
leaves it. -/
def msBeforeNext (tokens : List ℤ) (now : ℤ) (interval : ℤ) : ℤ :=
  match tokens.filter (fun t => now - interval < t) with
  | [] => 0
  | t :: ts => (ts.foldl min t) + interval - now

theorem foldl_min_mem (t0 : ℤ) (l : List ℤ) : l.foldl min t0 ∈ t0 :: l := by
  induction l generalizing t0 with
  | nil => simp [List.foldl]
  | cons a l ih =>
    have h := ih (min t0 a)
    simp only [List.foldl_cons]
    rcases List.mem_cons.mp h with h1 | h1
    · rcases min_choice t0 a with hm | hm
      · rw [h1, hm]
        exact List.mem_cons_self _ _
      · rw [h1, hm]
        exact List.mem_cons_of_mem _ (List.mem_cons_self _ _)
    · exact List.mem_cons_of_mem _ (List.mem_cons_of_mem _ h1)

theorem retryAfterSeconds_pos (ms : ℤ) (hms : 0 < ms) :
    0 < retryAfterSeconds ms := by
  unfold retryAfterSeconds
  split
  · norm_num
  · rename_i h
    have hnonneg : (0 : ℤ) ≤ jsRound ((ms : ℚ) / 1000) := by
      unfold jsRound
      have : (0 : ℚ) ≤ (ms : ℚ) / 1000 + 1 / 2 := by positivity
      exact Int.le_floor.mpr (by exact_mod_cast this)
    omega

/-- Filtering keeps everything when all stored timestamps lie inside the
window. -/
theorem filter_window_all (tokens : List ℤ) (now interval : ℤ)
    (h : ∀ t ∈ tokens, now - interval < t) :
    tokens.filter (fun t => now - interval < t) = tokens := by
  rw [List.filter_eq_self]
  intro t ht
  simpa using h t ht

/-- First helper for C8: starting from stored timestamps `acc`, checks at
times `ts` are all allowed and simply accumulate, provided the total count
stays within `limit` and every pair of involved timestamps (stored before
checked, earlier check before later check) is less than `interval` apart. -/
theorem runChecks_all_allowed (limit : ℕ) (interval : ℤ) :
    ∀ (ts acc : List ℤ),
      acc.length + ts.length ≤ limit →
      (acc ++ ts).Pairwise (fun a b => b - a < interval) →
      runChecks acc ts limit interval = (List.replicate ts.length .allowed, acc ++ ts) := by
  intro ts
  induction ts with
  | nil =>
    intro acc _ _
    simp [runChecks]
  | cons t rest ih =>
    intro acc hlen hpair
    have hmem : ∀ a ∈ acc, t - a < interval := by
      intro a ha
      have := (List.pairwise_append.mp hpair).2.2 a ha t (by simp)
      exact this
    have hfil : acc.filter (fun x => t - interval < x) = acc :=
      filter_window_all acc t interval (fun x hx => by have := hmem x hx; omega)
    have hstep : rateLimitCheck acc t limit interval = (.allowed, acc ++ [t]) := by
      unfold rateLimitCheck
      simp only [hfil]
      rw [if_neg (by simp at hlen ⊢; omega)]
    have hpair2 : ((acc ++ [t]) ++ rest).Pairwise (fun a b => b - a < interval) := by
      rw [List.append_assoc]
      simpa using hpair
    have hlen2 : (acc ++ [t]).length + rest.length ≤ limit := by
      simp at hlen ⊢
      omega
    unfold runChecks
    simp only [hstep, ih (acc ++ [t]) hlen2 hpair2]
    simp [List.replicate_succ]

/-- **C8.** Sliding-window behaviour of the rate limiter for one key
(rate-limit.ts lines 203-228, `retryAfter` conversion from rate-limiter.ts
lines 61-69): starting from an empty state, every one of `limit` checks whose
timestamps fall within one trailing window is allowed; the `(limit+1)`-th
check inside the same window is rejected, with a positive
`retryAfterSeconds`; and once the window has elapsed, a check for the same
key is allowed again. -/
theorem rateLimit_window_behaviour (ts : List ℤ) (tlast tnew : ℤ)
    (limit : ℕ) (interval : ℤ)
    (hlimit : 1 ≤ limit) (hlen : ts.length = limit)
    (hwindow : (ts ++ [tlast]).Pairwise (fun a b => b - a < interval))
    (helapsed : ∀ t ∈ ts, t + interval ≤ tnew) :
    (runChecks [] ts limit interval).1 = List.replicate limit .allowed ∧
    (rateLimitCheck (runChecks [] ts limit interval).2 tlast limit interval).1
      = .rejected ∧
    0 < retryAfterSeconds
        (msBeforeNext (runChecks [] ts limit interval).2 tlast interval) ∧
    (rateLimitCheck (runChecks [] ts limit interval).2 tnew limit interval).1
      = .allowed := by
  have hpre : ([] ++ ts).Pairwise (fun a b : ℤ => b - a < interval) := by
    simpa using (List.pairwise_append.mp hwindow).1
  have hrun := runChecks_all_allowed limit interval ts []
    (by simp [hlen]) hpre
  have hstate : (runChecks [] ts limit interval).2 = ts := by
    rw [hrun]
    simp
  have hinwin : ∀ t ∈ ts, tlast - interval < t := by
    intro t htm
    have := (List.pairwise_append.mp hwindow).2.2 t htm tlast (by simp)
    omega
  have hfil : ts.filter (fun x => tlast - interval < x) = ts :=
    filter_window_all ts tlast interval hinwin
  refine ⟨by rw [hrun, hlen], ?_, ?_, ?_⟩
  · rw [hstate]
    unfold rateLimitCheck
    simp only [hfil]
    rw [if_pos (by omega)]
  · rw [hstate]
    apply retryAfterSeconds_pos
    unfold msBeforeNext
    rw [hfil]
    obtain ⟨t0, rest, hts⟩ : ∃ t0 rest, ts = t0 :: rest := by
      cases ts with
      | nil => simp at hlen; omega
      | cons a l => exact ⟨a, l, rfl⟩
    subst hts
    simp only
    have hmin : (rest.foldl min t0) ∈ (t0 :: rest) := foldl_min_mem _ _
    have := hinwin _ hmin
    omega
  · rw [hstate]
    unfold rateLimitCheck
    have : ts.filter (fun x => tnew - interval < x) = [] := by
      rw [List.filter_eq_nil_iff]
      intro t htm
      have := helapsed t htm
      simp
      omega
    simp only [this]
    rw [if_neg (by simp; omega)]

/-- Witness for `rateLimit_window_behaviour`: limit 2, window 1000 ms, two
checks at 0 and 10 allowed, a third at 20 rejected with positive retry-after,
and a check at 2000 (window elapsed) allowed again. -/
theorem rateLimit_window_behaviour_witness :
    (runChecks [] [0, 10] 2 1000).1 = List.replicate 2 .allowed ∧
    (rateLimitCheck (runChecks [] [0, 10] 2 1000).2 20 2 1000).1 = .rejected ∧
    0 < retryAfterSeconds (msBeforeNext (runChecks [] [0, 10] 2 1000).2 20 1000) ∧
    (rateLimitCheck (runChecks [] [0, 10] 2 1000).2 2000 2 1000).1 = .allowed :=
  rateLimit_window_behaviour [0, 10] 20 2000 2 1000 (by norm_num) (by decide)
    (by decide) (by decide)

/-- **C10.** A rejected check leaves the stored timestamp state of the key
unchanged (the legacy limiter throws before `tokens.set`, rate-limit.ts
lines 218-223), so a rejected request consumes no slot and every later check
for the key behaves exactly as if the rejected request had never happened. -/
theorem rateLimit_reject_preserves_state (tokens : List ℤ) (now : ℤ)
    (limit : ℕ) (interval : ℤ)
    (hrej : (rateLimitCheck tokens now limit interval).1 = .rejected) :
    (rateLimitCheck tokens now limit interval).2 = tokens ∧
    ∀ (laterTimes : List ℤ) (limit2 : ℕ) (interval2 : ℤ),
      runChecks (rateLimitCheck tokens now limit interval).2 laterTimes limit2 interval2 =
      runChecks tokens laterTimes limit2 interval2 := by
  have hstate : (rateLimitCheck tokens now limit interval).2 = tokens := by
    unfold rateLimitCheck at hrej ⊢
    by_cases h : limit ≤ (tokens.filter (fun t => now - interval < t)).length
    · simp only [if_pos h]
    · rw [if_neg h] at hrej
      simp at hrej
  exact ⟨hstate, fun laterTimes limit2 interval2 => by rw [hstate]⟩

/-- Witness for `rateLimit_reject_preserves_state`: a key holding timestamp 0
checked at time 1 with limit 1 is rejected and its state survives unchanged. -/
theorem rateLimit_reject_preserves_state_witness :
    (rateLimitCheck [0] 1 1 10).2 = [0] ∧
    ∀ (laterTimes : List ℤ) (limit2 : ℕ) (interval2 : ℤ),
      runChecks (rateLimitCheck [0] 1 1 10).2 laterTimes limit2 interval2 =
      runChecks [0] laterTimes limit2 interval2 :=
  rateLimit_reject_preserves_state [0] 1 1 10 (by decide)

end RateLimiter

namespace BatchRoute

/-! ## `POST /api/cloudinary-batch` (src/app/api/cloudinary-batch/route.ts)

We embed the request/response data model and the handler's control flow.
JavaScript's `!operation.publicId` is falsy exactly when the string is empty,
so "lacks a resource identifier" is modelled as `publicId = ""`.  The remote
Cloudinary update (`updateCloudinaryResource`) is external I/O and is
modelled as an oracle `upd` from an operation to either update details or an
error message.  Sub-batch chunking (lines 119-182) only inserts delays and
groups concurrent calls: `Promise.allSettled` preserves order and the mapped
callbacks never reject (each catches its own error), so the assembled
`results` array is the in-order image of `operations`; the handler is
embedded accordingly, with the list of remotely-updated publicIds returned
alongside the response as the call trace. -/

/-- One entry of the `operations` array (route.ts lines 18-24). -/
structure BatchUpdateRequest where
  publicId : String
  tags : Option (List String)
  description : Option String
  context : Option (List (String × String))
  metadata : Option (List (String × String))
deriving DecidableEq, Repr

/-- The `options` object (route.ts lines 28-32). -/
structure BatchOptions where
  dryRun : Option Bool
  batchSize : Option ℕ
  delayBetweenBatches : Option ℕ
deriving DecidableEq, Repr

/-- The request body (route.ts lines 26-33). -/
structure BatchOperationRequest where
  operations : List BatchUpdateRequest
  options : Option BatchOptions
deriving DecidableEq, Repr

/-- The `details` of a per-operation result: a dry-run echo (route.ts lines
136-145) or the remote update's payload. -/
inductive OpDetails (ρ : Type) where
  | dryRunEcho (tags : Option (List String)) (description : Option String)
      (context : Option (List (String × String)))
      (metadata : Option (List (String × String)))
  | remote (r : ρ)
deriving DecidableEq, Repr

/-- One per-operation outcome (route.ts lines 35-40). -/
structure BatchOperationResult (ρ : Type) where
  publicId : String
  success : Bool
  error : Option String
  details : Option (OpDetails ρ)
deriving DecidableEq, Repr

/-- The `summary` block (route.ts lines 49-54). -/
structure BatchSummary where
  totalProcessed : ℕ
  totalSuccessful : ℕ
  totalFailed : ℕ
  successRate : ℚ
deriving DecidableEq, Repr

/-- The `results` block (route.ts lines 45-55). -/
structure BatchResults (ρ : Type) where
  successful : List (BatchOperationResult ρ)
  failed : List (BatchOperationResult ρ)
  total : ℕ
  summary : BatchSummary
deriving DecidableEq, Repr

/-- The 200-response body (route.ts lines 42-61; timing metadata, which
depends on the wall clock, is omitted except for the batch count). -/
structure BatchResponse (ρ : Type) where
  success : Bool
  message : String
  results : BatchResults ρ
  batchCount : ℕ
deriving DecidableEq, Repr

/-- The HTTP outcomes of the handler, with their status codes. -/
inductive BatchHttp (ρ : Type) where
  | rateLimited (status : ℕ) (error : String)
  | badRequest (status : ℕ) (error : String)
  | ok (status : ℕ) (body : BatchResponse ρ)
deriving DecidableEq, Repr

/-- Processing of a single operation (route.ts lines 126-159): in dry-run
mode the would-be changes are echoed back with `success = true` and no remote
call; otherwise `updateCloudinaryResource` runs and an exception is recorded
as a failed outcome.  The returned `Bool` records whether the remote update
was invoked. -/
def processOperation (dryRun : Bool) (upd : BatchUpdateRequest → Except String ρ)
    (op : BatchUpdateRequest) : BatchOperationResult ρ × Bool :=
  if dryRun then
    ({ publicId := op.publicId, success := true, error := none,
       details := some (.dryRunEcho op.tags op.description op.context op.metadata) },
     false)
  else
    match upd op with
    | .ok r =>
      ({ publicId := op.publicId, success := true, error := none,
         details := some (.remote r) }, true)
    | .error e =>
      ({ publicId := op.publicId, success := false, error := some e,
         details := none }, true)

/-- `Math.round(x * 100) / 100` (route.ts line 208). -/
def round2 (q : ℚ) : ℚ := (RateLimiter.jsRound (q * 100) : ℚ) / 100

/-- The `POST` handler (route.ts lines 63-240), from the rate-limit check to
the JSON response.  `rateLimited` is the outcome of `limiter.check`; the
second component of the result is the list of publicIds for which the remote
update was invoked. -/
def POST (rateLimited : Bool) (body : BatchOperationRequest)
    (upd : BatchUpdateRequest → Except String ρ) : BatchHttp ρ × List String :=
  if rateLimited then
    (.rateLimited 429 "Rate limit exceeded. Please try again later.", [])
  else if body.operations.length = 0 then
    (.badRequest 400 "operations array is required and must not be empty", [])
  else if 100 < body.operations.length then
    (.badRequest 400 "Maximum 100 operations allowed per batch request", [])
  else if body.operations.any (fun op => op.publicId == "") then
    (.badRequest 400 "publicId is required for each operation", [])
  else
    let dryRun := ((body.options.map (fun o => o.dryRun.getD false)).getD false)
    let batchSize := ((body.options.map (fun o => o.batchSize.getD 10)).getD 10)
    let pairs := body.operations.map (processOperation dryRun upd)
    let results := pairs.map (·.1)
    let calledIds := (pairs.filter (·.2)).map (fun p => p.1.publicId)
    let successful := results.filter (·.success)
    let failed := results.filter (fun r => !r.success)
    let totalProcessed := results.length
    let totalSuccessful := successful.length
    let totalFailed := failed.length
    let successRate : ℚ :=
      if 0 < totalProcessed then (totalSuccessful : ℚ) / (totalProcessed : ℚ) * 100
      else 0
    (.ok 200
      { success := totalFailed = 0,
        message :=
          if totalFailed = 0 then
            "Successfully processed all " ++ toString totalProcessed ++ " operations"
          else
            "Processed " ++ toString totalProcessed ++ " operations with " ++
              toString totalFailed ++ " failures",
        results :=
          { successful := successful, failed := failed, total := totalProcessed,
            summary :=
              { totalProcessed := totalProcessed,
                totalSuccessful := totalSuccessful,
                totalFailed := totalFailed,
                successRate := round2 successRate } },
        batchCount := (body.operations.length + batchSize - 1) / batchSize },
     calledIds)

/-- Structural validity of a batch request, as the handler checks it. -/
def validRequest (body : BatchOperationRequest) : Prop :=
  0 < body.operations.length ∧ body.operations.length ≤ 100 ∧
    ∀ op ∈ body.operations, op.publicId ≠ ""

instance (body : BatchOperationRequest) : Decidable (validRequest body) := by
  unfold validRequest
  infer_instance

theorem POST_valid_ok (body : BatchOperationRequest)
    (upd : BatchUpdateRequest → Except String ρ) (hvalid : validRequest body) :
    ∃ resp, (POST false body upd).1 = .ok 200 resp ∧
      resp.results.successful =
        ((body.operations.map (processOperation
          ((body.options.map (fun o => o.dryRun.getD false)).getD false) upd)).map
            (·.1)).filter (·.success) ∧
      resp.results.failed =
        ((body.operations.map (processOperation
          ((body.options.map (fun o => o.dryRun.getD false)).getD false) upd)).map
            (·.1)).filter (fun r => !r.success) := by
  obtain ⟨h1, h2, h3⟩ := hvalid
  have hany : body.operations.any (fun op => op.publicId == "") = false := by
    rw [Bool.eq_false_iff]
    intro hc
    obtain ⟨op, hop, hop2⟩ := List.any_eq_true.mp hc
    exact h3 op hop (by simpa using hop2)
  unfold POST
  rw [if_neg (by simp), if_neg (by omega), if_neg (by omega), hany]
  simp only [Bool.false_eq_true, if_false]
  exact ⟨_, rfl, rfl, rfl⟩

theorem length_filter_success (l : List (BatchOperationResult ρ)) :
    (l.filter (·.success)).length + (l.filter (fun r => !r.success)).length
      = l.length := by
  induction l with
  | nil => rfl
  | cons r l ih =>
    by_cases h : r.success = true <;>
      simp [List.filter_cons, h] <;> omega

/-- **C1.** For every structurally valid batch request (non-empty, at most
100 operations, every operation carrying a publicId) that passes the rate
limiter, the handler returns a 200 report in which every input operation
yields exactly one outcome — `successful.length + failed.length =
operations.length` — for every possible behaviour of the remote update,
including the one where every single operation fails. -/
theorem batch_partition_total (body : BatchOperationRequest)
    (upd : BatchUpdateRequest → Except String ρ) (hvalid : validRequest body) :
    ∃ resp, (POST false body upd).1 = .ok 200 resp ∧
      resp.results.successful.length + resp.results.failed.length =
        body.operations.length := by
  obtain ⟨resp, hresp, hsucc, hfail⟩ := POST_valid_ok body upd hvalid
  refine ⟨resp, hresp, ?_⟩
  rw [hsucc, hfail, length_filter_success, List.length_map, List.length_map]

/-- Witness for `batch_partition_total`: a two-operation batch in which the
remote update fails for every operation still yields a 200 report with
`successful.length + failed.length = 2`. -/
theorem batch_partition_total_witness :
    ∃ resp,
      (POST false
        { operations :=
            [{ publicId := "a", tags := none, description := none,
               context := none, metadata := none },
             { publicId := "b", tags := none, description := none,
               context := none, metadata := none }],
          options := none }
        (fun _ => (.error "Cloudinary update failed: boom" : Except String ℕ))).1 =
        .ok 200 resp ∧
      resp.results.successful.length + resp.results.failed.length = 2 :=
  batch_partition_total _ _ (by decide)

/-- **C4.** Dry-run mode (route.ts lines 133-145): on a structurally valid
request with `options.dryRun = true`, the remote update is never invoked for
any operation, and every operation is reported successful with the would-be
changes (tags, description, context, metadata) echoed back. -/
theorem batch_dryRun_no_mutation (body : BatchOperationRequest)
    (upd : BatchUpdateRequest → Except String ρ) (o : BatchOptions)
    (hvalid : validRequest body) (hopt : body.options = some o)
    (hdry : o.dryRun = some true) :
    (POST false body upd).2 = [] ∧
    ∃ resp, (POST false body upd).1 = .ok 200 resp ∧
      resp.results.failed = [] ∧
      resp.results.successful = body.operations.map (fun op =>
        { publicId := op.publicId, success := true, error := none,
          details := some (.dryRunEcho op.tags op.description op.context
            op.metadata) }) := by
  obtain ⟨h1, h2, h3⟩ := hvalid
  have hany : body.operations.any (fun op => op.publicId == "") = false := by
    rw [Bool.eq_false_iff]
    intro hc
    obtain ⟨op, hop, hop2⟩ := List.any_eq_true.mp hc
    exact h3 op hop (by simpa using hop2)
  unfold POST
  rw [if_neg (by simp), if_neg (by omega), if_neg (by omega), hany]
  simp only [Bool.false_eq_true, if_false, hopt, hdry, Option.map_some,
    Option.getD_some]
  constructor
  · simp [processOperation, List.filter_map, hdry]
  · refine ⟨_, rfl, ?_, ?_⟩
    · simp [processOperation, List.filter_map, Function.comp_def, hdry]
    · simp only [List.map_map]
      rw [List.filter_eq_self.mpr]
      · simp [processOperation, Function.comp_def, hdry]
      · intro r hr
        obtain ⟨op, hop, hop2⟩ := List.mem_map.mp hr
        rw [← hop2]
        simp [processOperation, Function.comp_def, hdry]

/-- Witness for `batch_dryRun_no_mutation` at a concrete input. -/
theorem batch_dryRun_no_mutation_witness :
    (POST false
      { operations :=
          [{ publicId := "a", tags := some ["t1"], description := some "d",
             context := none, metadata := none }],
        options := some { dryRun := some true, batchSize := none,
                          delayBetweenBatches := none } }
      (fun _ => (.error "never called" : Except String ℕ))).2 = [] ∧
    ∃ resp,
      (POST false
        { operations :=
            [{ publicId := "a", tags := some ["t1"], description := some "d",
               context := none, metadata := none }],
          options := some { dryRun := some true, batchSize := none,
                            delayBetweenBatches := none } }
        (fun _ => (.error "never called" : Except String ℕ))).1 = .ok 200 resp ∧
      resp.results.failed = [] ∧
      resp.results.successful =
        [({ publicId := "a", tags := some ["t1"], description := some "d",
            context := none, metadata := none } : BatchUpdateRequest)].map
          (fun op =>
            { publicId := op.publicId, success := true, error := none,
              details := some (.dryRunEcho op.tags op.description op.context
                op.metadata) }) :=
  batch_dryRun_no_mutation _ _ _ (by decide) rfl rfl

theorem any_emptyId_eq_true (body : BatchOperationRequest)
    (op : BatchUpdateRequest) (hop : op ∈ body.operations)
    (hemp : op.publicId = "") :
    body.operations.any (fun op => op.publicId == "") = true :=
  List.any_eq_true.mpr ⟨op, hop, by simp [hemp]⟩

/-- **C9.** Validation (route.ts lines 79-102): given the request reaches the
handler past the rate limiter, it is rejected with a 400 error — with no
remote call and no operation processed — exactly when the operations array
is empty, longer than 100, or contains an entry whose publicId is missing
(the empty string, which is what JavaScript's `!operation.publicId` tests). -/
theorem batch_validation_iff (body : BatchOperationRequest)
    (upd : BatchUpdateRequest → Except String ρ) :
    ((∃ msg, (POST false body upd).1 = .badRequest 400 msg) ↔
      (body.operations.length = 0 ∨ 100 < body.operations.length ∨
        ∃ op ∈ body.operations, op.publicId = "")) ∧
    ((body.operations.length = 0 ∨ 100 < body.operations.length ∨
        ∃ op ∈ body.operations, op.publicId = "") →
      (POST false body upd).2 = []) := by
  by_cases hz : body.operations.length = 0
  · have hpost : POST false body upd =
        (.badRequest 400 "operations array is required and must not be empty",
          []) := by
      unfold POST
      rw [if_neg (by simp), if_pos hz]
    refine ⟨⟨fun _ => Or.inl hz, fun _ => ⟨_, by rw [hpost]⟩⟩, fun _ => by rw [hpost]⟩
  · by_cases hg : 100 < body.operations.length
    · have hpost : POST false body upd =
          (.badRequest 400 "Maximum 100 operations allowed per batch request",
            []) := by
        unfold POST
        rw [if_neg (by simp), if_neg hz, if_pos hg]
      refine ⟨⟨fun _ => Or.inr (Or.inl hg), fun _ => ⟨_, by rw [hpost]⟩⟩,
        fun _ => by rw [hpost]⟩
    · by_cases hany : body.operations.any (fun op => op.publicId == "") = true
      · have hex : ∃ op ∈ body.operations, op.publicId = "" := by
          obtain ⟨op, hop, hop2⟩ := List.any_eq_true.mp hany
          exact ⟨op, hop, by simpa using hop2⟩
        have hpost : POST false body upd =
            (.badRequest 400 "publicId is required for each operation", []) := by
          unfold POST
          rw [if_neg (by simp), if_neg hz, if_neg hg, hany]
          simp
        refine ⟨⟨fun _ => Or.inr (Or.inr hex), fun _ => ⟨_, by rw [hpost]⟩⟩,
          fun _ => by rw [hpost]⟩
      · have hvalid : validRequest body := by
          refine ⟨by omega, by omega, ?_⟩
          intro op hop hemp
          exact hany (any_emptyId_eq_true body op hop hemp)
        obtain ⟨resp, hresp, _, _⟩ := POST_valid_ok body upd hvalid
        have hninv : ¬ (body.operations.length = 0 ∨
            100 < body.operations.length ∨
            ∃ op ∈ body.operations, op.publicId = "") := by
          rintro (h | h | ⟨op, hop, hemp⟩)
          · exact hz h
          · exact hg h
          · exact hany (any_emptyId_eq_true body op hop hemp)
        refine ⟨⟨fun ⟨msg, hmsg⟩ => ?_, fun h => absurd h hninv⟩,
          fun h => absurd h hninv⟩
        rw [hresp] at hmsg
        exact absurd hmsg (by simp)

/-- Witness for `batch_validation_iff`: an empty operations array yields a
400 rejection with no operation processed. -/
theorem batch_validation_iff_witness :
    (∃ msg, (POST false { operations := [], options := none }
      (fun _ => (.ok 0 : Except String ℕ))).1 = .badRequest 400 msg) ∧
    (POST false { operations := [], options := none }
      (fun _ => (.ok 0 : Except String ℕ))).2 = [] :=
  ⟨(batch_validation_iff { operations := [], options := none }
      (fun _ => (.ok 0 : Except String ℕ))).1.mpr (Or.inl rfl),
   (batch_validation_iff { operations := [], options := none }
      (fun _ => (.ok 0 : Except String ℕ))).2 (Or.inl rfl)⟩

end BatchRoute

namespace Uploader

/-! ## Client-side upload orchestrator (`CloudinaryUploader`, src/unnamed/part_007)

The component keeps `uploadFiles : UploadFile[]` in React state; every state
change goes through `setUploadFiles(prev => prev.map(...))`, i.e. a per-task
update keyed by task id.  We embed the task list and the state-update
functions literally, and model one React-level "run" as a sequence of events:

  * `process outcome msg` — `processUploads` (lines 91-199): it selects the
    files whose status is `'pending'` **or** `'error'`, and for each, in
    order, sets it to `uploading` and then, depending on the remote outcome
    (the oracle `outcome`, with `msg` the error message oracle), to
    `completed` or to `error` with `retryCount + 1`;
  * `retry fid outcome msg` — a click on the Retry button (lines 201-215):
    `retryUpload` refuses when `retryCount >= MAX_RETRIES` (no state change,
    no re-attempt), otherwise resets the task to `pending` and schedules
    `processUploads`;
  * `add newTasks` — `onDrop` (lines 227-240): accepted files are appended
    as fresh `pending` tasks with `retryCount = 0`.

The trace of an event is the list of successive values of `uploadFiles`, so
that every status change of every task is visible in adjacent trace states.
The interval-based progress animation (lines 110-116) only mutates
`progress` of an `uploading` task, never `status`, and is omitted. -/

/-- `status: 'pending' | 'uploading' | 'completed' | 'error'`. -/
inductive UStatus where
  | pending
  | uploading
  | completed
  | err
deriving DecidableEq, Repr

/-- An `UploadFile` (part_007 lines 7-15); the `File` reference and preview
URL play no part in the state machine. -/
structure UTask where
  id : ℕ
  status : UStatus
  progress : ℕ
  errMsg : Option String
  retryCount : ℕ
deriving DecidableEq, Repr

/-- `const MAX_RETRIES = 3` (part_007 line 24). -/
def MAX_RETRIES : ℕ := 3

/-- Lines 104-106: set the task to `uploading` with progress 0. -/
def setUploading (s : List UTask) (fid : ℕ) : List UTask :=
  s.map fun f =>
    if f.id = fid then { f with status := .uploading, progress := 0 } else f

/-- Lines 124-128: set the task to `completed` with progress 100. -/
def setCompleted (s : List UTask) (fid : ℕ) : List UTask :=
  s.map fun f =>
    if f.id = fid then { f with status := .completed, progress := 100 } else f

/-- Lines 183-192: set the task to `error`, record the message, and increment
`retryCount`. -/
def setFailed (s : List UTask) (fid : ℕ) (m : String) : List UTask :=
  s.map fun f =>
    if f.id = fid then
      { f with status := .err, errMsg := some m, retryCount := f.retryCount + 1 }
    else f

/-- Lines 207-211: reset the task to `pending` and clear its error. -/
def setPendingRetry (s : List UTask) (fid : ℕ) : List UTask :=
  s.map fun f =>
    if f.id = fid then { f with status := .pending, errMsg := none } else f

/-- Line 97: `uploadFiles.filter(f => f.status === 'pending' || f.status === 'error')`,
as the ids to process. -/
def processTargets (s : List UTask) : List ℕ :=
  (s.filter (fun f => f.status == .pending || f.status == .err)).map (·.id)

/-- The body of the `processUploads` loop over its selected targets,
producing the successive states of `uploadFiles`. -/
def processGo (outcome : ℕ → Bool) (msg : ℕ → String) :
    List UTask → List ℕ → List (List UTask)
  | _, [] => []
  | s, fid :: rest =>
    let s1 := setUploading s fid
    let s2 := if outcome fid then setCompleted s1 fid else setFailed s1 fid (msg fid)
    s1 :: s2 :: processGo outcome msg s2 rest

/-- `processUploads` (part_007 lines 91-199) as a state trace. -/
def processUploads (outcome : ℕ → Bool) (msg : ℕ → String) (s : List UTask) :
    List (List UTask) :=
  processGo outcome msg s (processTargets s)

/-- `retryUpload` (part_007 lines 201-215): refused (second component `true`)
when the task's `retryCount` has reached `MAX_RETRIES`; otherwise the task is
reset to `pending`. -/
def retryUpload (s : List UTask) (fid : ℕ) : List UTask × Bool :=
  match s.find? (fun f => f.id == fid) with
  | none => (s, false)
  | some f =>
    if MAX_RETRIES ≤ f.retryCount then (s, true)
    else (setPendingRetry s fid, false)

/-- Final state of a trace that started at `s`. -/
def lastState (s : List UTask) : List (List UTask) → List UTask
  | [] => s
  | t :: tr => lastState t tr

/-- External events driving the orchestrator. -/
inductive UEvent where
  | process (outcome : ℕ → Bool) (msg : ℕ → String)
  | retry (fid : ℕ) (outcome : ℕ → Bool) (msg : ℕ → String)
  | add (newTasks : List UTask)

/-- The state trace of one event. A refused retry produces no state change
and does not re-attempt (retryUpload returns before scheduling
`processUploads`); an allowed retry resets the task and re-runs
`processUploads`. -/
def eventTrace (s : List UTask) : UEvent → List (List UTask)
  | .process outcome msg => processUploads outcome msg s
  | .retry fid outcome msg =>
    let r := retryUpload s fid
    if r.2 then [] else r.1 :: processUploads outcome msg r.1
  | .add newTasks => [s ++ newTasks]

/-- The concatenated state trace of a sequence of events. -/
def runEvents : List UTask → List UEvent → List (List UTask)
  | _, [] => []
  | s, e :: es =>
    let tr := eventTrace s e
    tr ++ runEvents (lastState s tr) es

/-- Well-formedness of an event against the current state, as the UI
guarantees it: the Retry button is rendered only for a task displayed in the
`error` state (part_007 lines 421-432), and `onDrop` appends fresh `pending`
tasks with new ids and `retryCount = 0` (lines 230-239). -/
def eventOK (s : List UTask) : UEvent → Bool
  | .process _ _ => true
  | .retry fid _ _ => (s.filter (fun f => f.id == fid)).all (fun f => f.status == .err)
  | .add newTasks =>
    newTasks.all (fun t => t.status == .pending && t.retryCount == 0) &&
      decide (((s ++ newTasks).map (·.id)).Nodup)

/-- Well-formedness of a whole event sequence. -/
def runOK : List UTask → List UEvent → Bool
  | _, [] => true
  | s, e :: es => eventOK s e && runOK (lastState s (eventTrace s e)) es

/-- The transition relation asserted by the claim: `pending -> uploading ->
completed | error`, and `error -> pending` only under the retry cap;
`completed` terminal; no `error -> uploading`. -/
def claimedStep (f g : UTask) : Prop :=
  f.status = g.status ∨
  (f.status = .pending ∧ g.status = .uploading) ∨
  (f.status = .uploading ∧ g.status = .completed) ∨
  (f.status = .uploading ∧ g.status = .err) ∨
  (f.status = .err ∧ g.status = .pending ∧ f.retryCount < MAX_RETRIES)

instance (f g : UTask) : Decidable (claimedStep f g) := by
  unfold claimedStep
  infer_instance

/-- The transition relation the code actually obeys: additionally
`error -> uploading` (an errored task re-selected by `processUploads`). -/
def allowedStep (f g : UTask) : Prop :=
  claimedStep f g ∨ (f.status = .err ∧ g.status = .uploading)

instance (f g : UTask) : Decidable (allowedStep f g) := by
  unfold allowedStep
  infer_instance

/-- All same-position task pairs of two adjacent states satisfy `R`
(state updates are per-id `map`s, so positions are preserved). -/
def stepOK (R : UTask → UTask → Prop) (s t : List UTask) : Prop :=
  ∀ p ∈ s.zip t, R p.1 p.2

instance (R : UTask → UTask → Prop) [DecidableRel R] (s t : List UTask) :
    Decidable (stepOK R s t) := by
  unfold stepOK
  exact List.decidableBAll _ _

/-- Every adjacent pair of states in the trace `s :: tr` satisfies `stepOK R`. -/
def chainOK (R : UTask → UTask → Prop) (s : List UTask)
    (tr : List (List UTask)) : Prop :=
  ∀ p ∈ (s :: tr).zip tr, stepOK R p.1 p.2

instance (R : UTask → UTask → Prop) [DecidableRel R] (s : List UTask)
    (tr : List (List UTask)) : Decidable (chainOK R s tr) := by
  unfold chainOK
  exact List.decidableBAll _ _

theorem chainOK_cons (R : UTask → UTask → Prop) (s t : List UTask)
    (tr : List (List UTask)) :
    chainOK R s (t :: tr) ↔ stepOK R s t ∧ chainOK R t tr := by
  unfold chainOK
  rw [show (s :: t :: tr).zip (t :: tr) = (s, t) :: (t :: tr).zip tr from rfl]
  exact List.forall_mem_cons

theorem chainOK_nil (R : UTask → UTask → Prop) (s : List UTask) :
    chainOK R s [] := by
  unfold chainOK
  simp

theorem chainOK_append (R : UTask → UTask → Prop) :
    ∀ (tr1 : List (List UTask)) (s : List UTask) (tr2 : List (List UTask)),
      chainOK R s tr1 → chainOK R (lastState s tr1) tr2 →
      chainOK R s (tr1 ++ tr2) := by
  intro tr1
  induction tr1 with
  | nil =>
    intro s tr2 _ h2
    simpa [lastState] using h2
  | cons t tr1 ih =>
    intro s tr2 h1 h2
    rw [List.cons_append, chainOK_cons]
    rw [chainOK_cons] at h1
    exact ⟨h1.1, ih t tr2 h1.2 (by simpa [lastState] using h2)⟩

theorem stepOK_map (R : UTask → UTask → Prop) :
    ∀ (s : List UTask) (h : UTask → UTask),
      (∀ f ∈ s, R f (h f)) → stepOK R s (s.map h) := by
  intro s
  induction s with
  | nil =>
    intro h _ p hp
    cases hp
  | cons a s ih =>
    intro h hall p hp
    rcases List.mem_cons.mp hp with h1 | h1
    · rw [h1]
      exact hall a (by simp)
    · exact ih h (fun f hf => hall f (by simp [hf])) p h1

theorem stepOK_self (s : List UTask) : stepOK allowedStep s s := by
  have h := stepOK_map allowedStep s id (fun f _ => Or.inl (Or.inl rfl))
  rwa [List.map_id] at h

theorem ids_map_update (s : List UTask) (h : UTask → UTask)
    (hid : ∀ f, (h f).id = f.id) : (s.map h).map (·.id) = s.map (·.id) := by
  rw [List.map_map]
  exact List.map_congr_left (fun f _ => hid f)

theorem setUploading_ids (s : List UTask) (fid : ℕ) :
    (setUploading s fid).map (·.id) = s.map (·.id) :=
  ids_map_update s _ (fun f => by by_cases hf : f.id = fid <;> simp [hf])

theorem setCompleted_ids (s : List UTask) (fid : ℕ) :
    (setCompleted s fid).map (·.id) = s.map (·.id) :=
  ids_map_update s _ (fun f => by by_cases hf : f.id = fid <;> simp [hf])

theorem setFailed_ids (s : List UTask) (fid : ℕ) (m : String) :
    (setFailed s fid m).map (·.id) = s.map (·.id) :=
  ids_map_update s _ (fun f => by by_cases hf : f.id = fid <;> simp [hf])

theorem setPendingRetry_ids (s : List UTask) (fid : ℕ) :
    (setPendingRetry s fid).map (·.id) = s.map (·.id) :=
  ids_map_update s _ (fun f => by by_cases hf : f.id = fid <;> simp [hf])

theorem eq_of_same_id (s : List UTask) (hnodup : (s.map (·.id)).Nodup)
    (f g : UTask) (hf : f ∈ s) (hg : g ∈ s) (hid : f.id = g.id) : f = g :=
  List.inj_on_of_nodup_map hnodup hf hg hid

/-- The status invariant carried along the `processUploads` loop: every task
whose id is still to be processed is currently `pending` or `error`. -/
def TargetsInv (s : List UTask) (targets : List ℕ) : Prop :=
  ∀ fid ∈ targets, ∀ f ∈ s, f.id = fid → f.status = .pending ∨ f.status = .err

theorem mem_processTargets (s : List UTask) (fid : ℕ)
    (hmem : fid ∈ processTargets s) :
    ∃ f ∈ s, f.id = fid ∧ (f.status = .pending ∨ f.status = .err) := by
  unfold processTargets at hmem
  obtain ⟨f, hf, hfid⟩ := List.mem_map.mp hmem
  obtain ⟨hfs, hpred⟩ := List.mem_filter.mp hf
  refine ⟨f, hfs, hfid, ?_⟩
  simpa using hpred

theorem processTargets_nodup (s : List UTask) (hnodup : (s.map (·.id)).Nodup) :
    (processTargets s).Nodup :=
  List.Nodup.sublist (List.Sublist.map _ (List.filter_sublist s)) hnodup

theorem processTargets_inv (s : List UTask) (hnodup : (s.map (·.id)).Nodup) :
    TargetsInv s (processTargets s) := by
  intro fid hfid f hf hid
  obtain ⟨f0, hf0, hf0id, hf0st⟩ := mem_processTargets s fid hfid
  rwa [eq_of_same_id s hnodup f f0 hf hf0 (hid.trans hf0id.symm)]

theorem status_in_setUploading (s : List UTask) (fid : ℕ) :
    ∀ f ∈ setUploading s fid, f.id = fid → f.status = .uploading := by
  intro f hf hfid
  obtain ⟨x, hx, hxf⟩ := List.mem_map.mp hf
  by_cases hxid : x.id = fid
  · rw [← hxf]
    simp [hxid]
  · rw [← hxf] at hfid
    rw [if_neg hxid] at hfid
    exact absurd hfid hxid

theorem stepOK_setUploading (s : List UTask) (fid : ℕ)
    (hst : ∀ f ∈ s, f.id = fid → f.status = .pending ∨ f.status = .err) :
    stepOK allowedStep s (setUploading s fid) := by
  apply stepOK_map
  intro f hf
  by_cases hfid : f.id = fid
  · rcases hst f hf hfid with hp | he
    · exact Or.inl (Or.inr (Or.inl ⟨hp, by simp [hfid]⟩))
    · exact Or.inr ⟨he, by simp [hfid]⟩
  · rw [if_neg hfid]
    exact Or.inl (Or.inl rfl)

theorem stepOK_settle (s1 : List UTask) (fid : ℕ) (outcome : Bool) (m : String)
    (hup : ∀ f ∈ s1, f.id = fid → f.status = .uploading) :
    stepOK allowedStep s1
      (if outcome then setCompleted s1 fid else setFailed s1 fid m) := by
  by_cases ho : outcome
  · rw [if_pos ho]
    apply stepOK_map
    intro f hf
    by_cases hfid : f.id = fid
    · exact Or.inl (Or.inr (Or.inr (Or.inl ⟨hup f hf hfid, by simp [hfid]⟩)))
    · rw [if_neg hfid]
      exact Or.inl (Or.inl rfl)
  · rw [if_neg ho]
    apply stepOK_map
    intro f hf
    by_cases hfid : f.id = fid
    · exact Or.inl (Or.inr (Or.inr (Or.inr (Or.inl ⟨hup f hf hfid, by simp [hfid]⟩))))
    · rw [if_neg hfid]
      exact Or.inl (Or.inl rfl)

/-- Non-target tasks survive one loop iteration unchanged. -/
theorem mem_settle_of_ne (s : List UTask) (fid : ℕ) (outcome : Bool) (m : String)
    (f : UTask)
    (hf : f ∈ (if outcome then setCompleted (setUploading s fid) fid
                else setFailed (setUploading s fid) fid m))
    (hne : f.id ≠ fid) : f ∈ s := by
  have hstep : ∀ (t : List UTask),
      f ∈ (if outcome then setCompleted t fid else setFailed t fid m) → f ∈ t := by
    intro t ht
    by_cases ho : outcome
    · rw [if_pos ho] at ht
      obtain ⟨x, hx, hxf⟩ := List.mem_map.mp ht
      by_cases hxid : x.id = fid
      · rw [← hxf] at hne
        simp [hxid] at hne
      · rwa [← hxf, if_neg hxid]
    · rw [if_neg ho] at ht
      obtain ⟨x, hx, hxf⟩ := List.mem_map.mp ht
      by_cases hxid : x.id = fid
      · rw [← hxf] at hne
        simp [hxid] at hne
      · rwa [← hxf, if_neg hxid]
  have h1 : f ∈ setUploading s fid := hstep _ hf
  obtain ⟨x, hx, hxf⟩ := List.mem_map.mp h1
  by_cases hxid : x.id = fid
  · rw [← hxf] at hne
    simp [hxid] at hne
  · rwa [← hxf, if_neg hxid]

theorem settle_ids (s : List UTask) (fid : ℕ) (outcome : Bool) (m : String) :
    ((if outcome then setCompleted (setUploading s fid) fid
      else setFailed (setUploading s fid) fid m).map (·.id)) = s.map (·.id) := by
  by_cases ho : outcome
  · rw [if_pos ho, setCompleted_ids, setUploading_ids]
  · rw [if_neg ho, setFailed_ids, setUploading_ids]

theorem processGo_chain (outcome : ℕ → Bool) (msg : ℕ → String) :
    ∀ (targets : List ℕ) (s : List UTask),
      targets.Nodup → TargetsInv s targets →
      chainOK allowedStep s (processGo outcome msg s targets) := by
  intro targets
  induction targets with
  | nil =>
    intro s _ _
    exact chainOK_nil _ _
  | cons fid rest ih =>
    intro s hnd hinv
    show chainOK allowedStep s (setUploading s fid ::
      (if outcome fid then setCompleted (setUploading s fid) fid
       else setFailed (setUploading s fid) fid (msg fid)) :: _)
    rw [chainOK_cons, chainOK_cons]
    refine ⟨stepOK_setUploading s fid (fun f hf hfid =>
        hinv fid (List.mem_cons_self _ _) f hf hfid), ?_, ?_⟩
    · exact stepOK_settle _ fid (outcome fid) (msg fid)
        (status_in_setUploading s fid)
    · apply ih
      · exact (List.nodup_cons.mp hnd).2
      · intro fid2 hfid2 f hf hfid
        have hne : f.id ≠ fid := by
          rw [hfid]
          intro hc
          exact (List.nodup_cons.mp hnd).1 (hc ▸ hfid2)
        exact hinv fid2 (List.mem_cons_of_mem _ hfid2) f
          (mem_settle_of_ne s fid (outcome fid) (msg fid) f hf hne) hfid

theorem lastState_cons (s t : List UTask) (tr : List (List UTask)) :
    lastState s (t :: tr) = lastState t tr := rfl

theorem processGo_last_ids (outcome : ℕ → Bool) (msg : ℕ → String) :
    ∀ (targets : List ℕ) (s : List UTask),
      (lastState s (processGo outcome msg s targets)).map (·.id) = s.map (·.id) := by
  intro targets
  induction targets with
  | nil =>
    intro s
    rfl
  | cons fid rest ih =>
    intro s
    show (lastState s (setUploading s fid :: _ :: _)).map (·.id) = _
    rw [lastState_cons, lastState_cons, ih, settle_ids s fid (outcome fid) (msg fid)]

theorem processUploads_chain (outcome : ℕ → Bool) (msg : ℕ → String)
    (s : List UTask) (hnodup : (s.map (·.id)).Nodup) :
    chainOK allowedStep s (processUploads outcome msg s) :=
  processGo_chain outcome msg (processTargets s) s
    (processTargets_nodup s hnodup) (processTargets_inv s hnodup)

theorem zip_self_append (s t : List UTask) : s.zip (s ++ t) = s.zip s := by
  induction s with
  | nil => rfl
  | cons a s ih =>
    show (a, a) :: s.zip (s ++ t) = (a, a) :: s.zip s
    rw [ih]

theorem retry_filter_all (s : List UTask) (fid : ℕ)
    (hok : (s.filter (fun f => f.id == fid)).all (fun f => f.status == .err) = true) :
    ∀ f ∈ s, f.id = fid → f.status = .err := by
  intro f hf hfid
  have := List.all_eq_true.mp hok f (List.mem_filter.mpr ⟨hf, by simp [hfid]⟩)
  simpa using this

theorem eventTrace_chain (s : List UTask) (e : UEvent)
    (hnodup : (s.map (·.id)).Nodup) (hok : eventOK s e = true) :
    chainOK allowedStep s (eventTrace s e) := by
  cases e with
  | process outcome msg =>
    exact processUploads_chain outcome msg s hnodup
  | retry fid outcome msg =>
    show chainOK allowedStep s
      (if (retryUpload s fid).2 then []
       else (retryUpload s fid).1 :: processUploads outcome msg (retryUpload s fid).1)
    unfold retryUpload
    cases hfind : s.find? (fun f => f.id == fid) with
    | none =>
      simp only [Bool.false_eq_true, if_false]
      rw [chainOK_cons]
      exact ⟨stepOK_self s, processUploads_chain outcome msg s hnodup⟩
    | some f =>
      by_cases hcap : MAX_RETRIES ≤ f.retryCount
      · simp only [if_pos hcap]
        exact chainOK_nil _ _
      · simp only [if_neg hcap, Bool.false_eq_true, if_false]
        rw [chainOK_cons]
        have hfmem : f ∈ s := List.mem_of_find?_eq_some hfind
        have hfid : f.id = fid := by simpa using List.find?_some hfind
        constructor
        · apply stepOK_map
          intro g hg
          by_cases hgid : g.id = fid
          · have hgerr : g.status = .err :=
              retry_filter_all s fid (by simpa [eventOK] using hok) g hg hgid
            have hgf : g = f :=
              eq_of_same_id s hnodup g f hg hfmem (hgid.trans hfid.symm)
            refine Or.inl (Or.inr (Or.inr (Or.inr (Or.inr
              ⟨hgerr, by simp [hgid], ?_⟩))))
            rw [hgf]
            omega
          · rw [if_neg hgid]
            exact Or.inl (Or.inl rfl)
        · apply processUploads_chain
          rw [setPendingRetry_ids]
          exact hnodup
  | add newTasks =>
    show chainOK allowedStep s [s ++ newTasks]
    rw [chainOK_cons]
    refine ⟨?_, chainOK_nil _ _⟩
    intro p hp
    rw [zip_self_append] at hp
    exact stepOK_self s p hp

theorem nodup_after_event (s : List UTask) (e : UEvent)
    (hnodup : (s.map (·.id)).Nodup) (hok : eventOK s e = true) :
    ((lastState s (eventTrace s e)).map (·.id)).Nodup := by
  cases e with
  | process outcome msg =>
    show ((lastState s (processUploads outcome msg s)).map (·.id)).Nodup
    unfold processUploads
    rw [processGo_last_ids]
    exact hnodup
  | retry fid outcome msg =>
    show ((lastState s
      (if (retryUpload s fid).2 then []
       else (retryUpload s fid).1 ::
         processUploads outcome msg (retryUpload s fid).1)).map (·.id)).Nodup
    by_cases hr : (retryUpload s fid).2
    · rw [if_pos hr]
      exact hnodup
    · rw [if_neg hr, lastState_cons]
      show ((lastState _ (processUploads outcome msg _)).map (·.id)).Nodup
      unfold processUploads
      rw [processGo_last_ids]
      have : ((retryUpload s fid).1.map (·.id)) = s.map (·.id) := by
        unfold retryUpload
        cases hfind : s.find? (fun f => f.id == fid) with
        | none => rfl
        | some f =>
          by_cases hcap : MAX_RETRIES ≤ f.retryCount
          · simp only [if_pos hcap]
          · simp only [if_neg hcap]
            exact setPendingRetry_ids s fid
      rw [this]
      exact hnodup
  | add newTasks =>
    show (((s ++ newTasks).map (·.id)).Nodup)
    have hok2 := hok
    unfold eventOK at hok2
    rw [Bool.and_eq_true] at hok2
    exact of_decide_eq_true hok2.2

/-- **C5 (amended).** Over every well-formed run of the upload orchestrator
(unique task ids; the Retry button only clicked on a task in the `error`
state; dropped files added as fresh `pending` tasks), every status change of
every task in the state trace follows one of: `pending -> uploading`,
`error -> uploading` (an errored task re-selected by a re-triggered
`processUploads`), `uploading -> completed`, `uploading -> error`, or
`error -> pending` via a retry permitted only while
`retryCount < MAX_RETRIES = 3`; in particular `completed` is terminal and a
task over the retry cap stays in `error`. -/
theorem status_transitions_allowed :
    ∀ (events : List UEvent) (s : List UTask),
      (s.map (·.id)).Nodup → runOK s events = true →
      chainOK allowedStep s (runEvents s events) := by
  intro events
  induction events with
  | nil =>
    intro s _ _
    exact chainOK_nil _ _
  | cons e es ih =>
    intro s hnodup hok
    unfold runOK at hok
    rw [Bool.and_eq_true] at hok
    obtain ⟨h1, h2⟩ := hok
    unfold runEvents
    apply chainOK_append
    · exact eventTrace_chain s e hnodup h1
    · exact ih _ (nodup_after_event s e hnodup h1) h2

/-- Witness for `status_transitions_allowed`: a concrete two-event run (drop
one file, process it with a failing upload). -/
theorem status_transitions_allowed_witness :
    chainOK allowedStep []
      (runEvents [] [UEvent.add [⟨1, .pending, 0, none, 0⟩],
                     .process (fun _ => false) (fun _ => "fail")]) :=
  status_transitions_allowed
    [UEvent.add [⟨1, .pending, 0, none, 0⟩],
     .process (fun _ => false) (fun _ => "fail")]
    [] (by decide) (by decide)

/-- **C5 counterexample.** A legitimate run in which a task moves from
`error` directly to `uploading`: file 1 is dropped and fails its upload;
file 2 is then dropped; re-triggering `processUploads` (the Upload button is
enabled again because file 2 is pending) re-selects file 1 — whose status is
`error` — and sets it straight to `uploading` (part_007 lines 97, 104-106),
violating the claimed transition relation. -/
theorem error_to_uploading_directly :
    runOK [] [UEvent.add [⟨1, .pending, 0, none, 0⟩],
              .process (fun _ => false) (fun _ => "fail"),
              .add [⟨2, .pending, 0, none, 0⟩],
              .process (fun _ => true) (fun _ => "ok")] = true ∧
    ¬ chainOK claimedStep []
        (runEvents [] [UEvent.add [⟨1, .pending, 0, none, 0⟩],
                       .process (fun _ => false) (fun _ => "fail"),
                       .add [⟨2, .pending, 0, none, 0⟩],
                       .process (fun _ => true) (fun _ => "ok")]) := by
  constructor <;> decide

/-- **C6 (amended).** For a task whose upload fails on every attempt: the
initial `processUploads` leaves it in `error` with `retryCount = 1`; manual
retries 1 and 2 are permitted, each re-attempting and failing, reaching
`error` with `retryCount = MAX_RETRIES = 3`; the third manual retry is
refused (`retryUpload` returns with the "Maximum retries exceeded" signal),
changes no state, and does not re-attempt the upload. -/
theorem retry_cap_behaviour (n : ℕ) (outcome : ℕ → Bool) (msg : ℕ → String)
    (hfail : ∀ i, outcome i = false) :
    lastState [⟨n, .pending, 0, none, 0⟩]
        (eventTrace [⟨n, .pending, 0, none, 0⟩] (.process outcome msg)) =
      [⟨n, .err, 0, some (msg n), 1⟩] ∧
    (retryUpload [⟨n, .err, 0, some (msg n), 1⟩] n).2 = false ∧
    lastState [⟨n, .err, 0, some (msg n), 1⟩]
        (eventTrace [⟨n, .err, 0, some (msg n), 1⟩] (.retry n outcome msg)) =
      [⟨n, .err, 0, some (msg n), 2⟩] ∧
    (retryUpload [⟨n, .err, 0, some (msg n), 2⟩] n).2 = false ∧
    lastState [⟨n, .err, 0, some (msg n), 2⟩]
        (eventTrace [⟨n, .err, 0, some (msg n), 2⟩] (.retry n outcome msg)) =
      [⟨n, .err, 0, some (msg n), 3⟩] ∧
    retryUpload [⟨n, .err, 0, some (msg n), 3⟩] n =
      ([⟨n, .err, 0, some (msg n), 3⟩], true) ∧
    eventTrace [⟨n, .err, 0, some (msg n), 3⟩] (.retry n outcome msg) = [] := by
  refine ⟨?_, ?_, ?_, ?_, ?_, ?_, ?_⟩ <;>
    simp [eventTrace, processUploads, processTargets, processGo, setUploading,
      setCompleted, setFailed, setPendingRetry, retryUpload, lastState,
      MAX_RETRIES, hfail]

/-- Witness for `retry_cap_behaviour` at a concrete task. -/
theorem retry_cap_behaviour_witness :
    lastState [⟨7, .pending, 0, none, 0⟩]
        (eventTrace [⟨7, .pending, 0, none, 0⟩]
          (.process (fun _ => false) (fun _ => "boom"))) =
      [⟨7, .err, 0, some "boom", 1⟩] ∧
    (retryUpload [⟨7, .err, 0, some "boom", 1⟩] 7).2 = false ∧
    lastState [⟨7, .err, 0, some "boom", 1⟩]
        (eventTrace [⟨7, .err, 0, some "boom", 1⟩]
          (.retry 7 (fun _ => false) (fun _ => "boom"))) =
      [⟨7, .err, 0, some "boom", 2⟩] ∧
    (retryUpload [⟨7, .err, 0, some "boom", 2⟩] 7).2 = false ∧
    lastState [⟨7, .err, 0, some "boom", 2⟩]
        (eventTrace [⟨7, .err, 0, some "boom", 2⟩]
          (.retry 7 (fun _ => false) (fun _ => "boom"))) =
      [⟨7, .err, 0, some "boom", 3⟩] ∧
    retryUpload [⟨7, .err, 0, some "boom", 3⟩] 7 =
      ([⟨7, .err, 0, some "boom", 3⟩], true) ∧
    eventTrace [⟨7, .err, 0, some "boom", 3⟩]
      (.retry 7 (fun _ => false) (fun _ => "boom")) = [] :=
  retry_cap_behaviour 7 (fun _ => false) (fun _ => "boom") (fun _ => rfl)

/-- **C6 counterexample.** The claim promises exactly `MAX_RETRIES = 3`
manual retries before refusal; in the code the initial failed attempt
already increments `retryCount` (part_007 line 189), so the **third** manual
retry is refused: after the initial failing `processUploads` and two
permitted (and failing) manual retries, the task holds `retryCount = 3` and
`retryUpload` refuses without re-attempting. -/
theorem third_manual_retry_refused :
    (retryUpload (lastState [⟨1, .pending, 0, none, 0⟩]
        (eventTrace [⟨1, .pending, 0, none, 0⟩]
          (.process (fun _ => false) (fun _ => "fail")))) 1).2 = false ∧
    (retryUpload (lastState [⟨1, .err, 0, some "fail", 1⟩]
        (eventTrace [⟨1, .err, 0, some "fail", 1⟩]
          (.retry 1 (fun _ => false) (fun _ => "fail")))) 1).2 = false ∧
    lastState [⟨1, .err, 0, some "fail", 2⟩]
        (eventTrace [⟨1, .err, 0, some "fail", 2⟩]
          (.retry 1 (fun _ => false) (fun _ => "fail"))) =
      [⟨1, .err, 0, some "fail", 3⟩] ∧
    (retryUpload [⟨1, .err, 0, some "fail", 3⟩] 1).2 = true ∧
    eventTrace [⟨1, .err, 0, some "fail", 3⟩]
      (.retry 1 (fun _ => false) (fun _ => "fail")) = [] := by
  refine ⟨?_, ?_, ?_, ?_, ?_⟩ <;> decide

end Uploader
